import Mathlib

/-!
Verification development for the VoiceRewind daemon (TypeScript sources under
`src/daemon/src` and the WebSocket handler module).  Each definition is a
shallow embedding of one function of the source, with the source location
recorded in its doc comment.  Theorems check the behavioural claims of the
natural-language specification against these embeddings.
-/

namespace VoiceRewind

/-! ## A small backtracking regex engine

`AudioService.parseIntentFromText` (src/daemon/src/services/AudioService.ts,
lines 219-273) is driven by JavaScript `RegExp.match` / `RegExp.test` calls.
To embed it faithfully we model the exact RegExp subset those patterns use:
literals, `.`, `\d`, `\s`, `\b`, alternation, capture groups and greedy or
lazy repetition with optional bounds, with the usual JS backtracking search
(leftmost match, alternatives tried left to right, greedy tries the body
first, lazy tries the continuation first, captures recorded on the
successful path only).  The engine is fuel-indexed for termination; the fuel
used below is far larger than the backtracking depth any of the nine
patterns can reach on the inputs considered. -/

/-- Regular-expression abstract syntax for the subset used by the source. -/
inductive RE where
  | eps : RE
  | lit : Char → RE
  | anyc : RE
  | digit : RE
  | space : RE
  | wordB : RE
  | seq : RE → RE → RE
  | alt : RE → RE → RE
  | rep : Nat → Option Nat → Bool → RE → RE
  | group : Nat → RE → RE
deriving Repr

/-- JS word character (`\w`, used by `\b`): ASCII letter, digit or underscore. -/
def isWordChar (c : Char) : Bool :=
  c.isAlpha || c.isDigit || c = '_'

/-- Continuation-passing backtracking matcher.  `reMatch fuel r cs i caps k`
tries to match `r` at index `i` of `cs`, calling the continuation `k` with
the index after the match and the capture list (group index, start, stop;
most recent first).  Greedy repetition tries the body before the
continuation, lazy repetition the other way around; an iteration of a
repetition body that consumes nothing fails (the JS empty-loop rule). -/
def reMatch : Nat → RE → List Char → Nat → List (Nat × Nat × Nat) →
    (Nat → List (Nat × Nat × Nat) → Option (Nat × List (Nat × Nat × Nat))) →
    Option (Nat × List (Nat × Nat × Nat))
  | 0, _, _, _, _, _ => none
  | _ + 1, RE.eps, _, i, caps, k => k i caps
  | _ + 1, RE.lit c, cs, i, caps, k =>
      match cs.get? i with
      | some c2 => if c2 = c then k (i + 1) caps else none
      | none => none
  | _ + 1, RE.anyc, cs, i, caps, k =>
      match cs.get? i with
      | some c2 => if c2 = '\n' then none else k (i + 1) caps
      | none => none
  | _ + 1, RE.digit, cs, i, caps, k =>
      match cs.get? i with
      | some c2 => if c2.isDigit then k (i + 1) caps else none
      | none => none
  | _ + 1, RE.space, cs, i, caps, k =>
      match cs.get? i with
      | some c2 => if c2.isWhitespace then k (i + 1) caps else none
      | none => none
  | _ + 1, RE.wordB, cs, i, caps, k =>
      let before := match i with
        | 0 => false
        | j + 1 => match cs.get? j with
          | some c2 => isWordChar c2
          | none => false
      let after := match cs.get? i with
        | some c2 => isWordChar c2
        | none => false
      if before ≠ after then k i caps else none
  | fuel + 1, RE.seq r1 r2, cs, i, caps, k =>
      reMatch fuel r1 cs i caps (fun j caps2 => reMatch fuel r2 cs j caps2 k)
  | fuel + 1, RE.alt r1 r2, cs, i, caps, k =>
      match reMatch fuel r1 cs i caps k with
      | some res => some res
      | none => reMatch fuel r2 cs i caps k
  | fuel + 1, RE.group n r, cs, i, caps, k =>
      reMatch fuel r cs i caps (fun j caps2 => k j ((n, i, j) :: caps2))
  | fuel + 1, RE.rep mn mx greedy r, cs, i, caps, k =>
      if mn > 0 then
        reMatch fuel r cs i caps (fun j caps2 =>
          reMatch fuel (RE.rep (mn - 1) (mx.map (· - 1)) greedy r) cs j caps2 k)
      else
        match mx with
        | some 0 => k i caps
        | _ =>
          if greedy then
            match reMatch fuel r cs i caps (fun j caps2 =>
                if j = i then none
                else reMatch fuel (RE.rep 0 (mx.map (· - 1)) greedy r) cs j caps2 k) with
            | some res => some res
            | none => k i caps
          else
            match k i caps with
            | some res => some res
            | none =>
                reMatch fuel r cs i caps (fun j caps2 =>
                  if j = i then none
                  else reMatch fuel (RE.rep 0 (mx.map (· - 1)) greedy r) cs j caps2 k)

/-- Leftmost search, as JS `String.prototype.match` with a non-global regex:
try each start position from the left, return the first success as
(match start, match stop, captures). -/
def reSearch (r : RE) (cs : List Char) (fuel : Nat) :
    Option (Nat × Nat × List (Nat × Nat × Nat)) :=
  (List.range (cs.length + 1)).findSome? fun p =>
    (reMatch fuel r cs p [] (fun j caps => some (j, caps))).map fun jc =>
      (p, jc.1, jc.2)

/-- Extract capture group `n` from a capture list, as the matched characters
(`undefined`, i.e. `none`, when the group did not participate). -/
def capChars (cs : List Char) (caps : List (Nat × Nat × Nat)) (n : Nat) :
    Option (List Char) :=
  (caps.find? fun t => t.1 = n).map fun t =>
    (cs.drop t.2.1).take (t.2.2 - t.2.1)

/-- JS `String.prototype.toLowerCase`, character-wise (the source only meets
ASCII text; `Char.toLower` lower-cases exactly the ASCII letters). -/
def jsToLower (cs : List Char) : List Char := cs.map Char.toLower

/-- JS `String.prototype.trim`: strip leading and trailing whitespace. -/
def jsTrim (cs : List Char) : List Char :=
  ((cs.dropWhile Char.isWhitespace).reverse.dropWhile Char.isWhitespace).reverse

/-- JS `s.startsWith("m")`: the first character is `m`. -/
def startsWithM (cs : List Char) : Bool :=
  match cs with
  | c :: _ => c = 'm'
  | [] => false

/-- Sequence a list of regexes. -/
def rSeq (rs : List RE) : RE := rs.foldr RE.seq RE.eps

/-- The regex matching a literal string. -/
def rStr (s : String) : RE := rSeq (s.toList.map RE.lit)

/-- Alternation of a non-empty list of regexes (left to right priority). -/
def rAlts : List RE → RE
  | [] => RE.eps
  | [r] => r
  | r :: rs => RE.alt r (rAlts rs)

/-- Greedy `?`. -/
def rOpt (r : RE) : RE := RE.rep 0 (some 1) true r

/-- Greedy `*`. -/
def rStar (r : RE) : RE := RE.rep 0 none true r

/-- Lazy `*?`. -/
def rStarLazy (r : RE) : RE := RE.rep 0 none false r

/-- Greedy `+`. -/
def rPlus (r : RE) : RE := RE.rep 1 none true r

/-- Pattern `(seconds?|secs?|s|minutes?|mins?|m)` — the unit group shared by the
rewind and forward patterns (group 3). -/
def unitGroupRE : RE :=
  RE.group 3 (rAlts
    [ rSeq [rStr "second", rOpt (RE.lit 's')]
    , rSeq [rStr "sec", rOpt (RE.lit 's')]
    , RE.lit 's'
    , rSeq [rStr "minute", rOpt (RE.lit 's')]
    , rSeq [rStr "min", rOpt (RE.lit 's')]
    , RE.lit 'm' ])

/-- Pattern `\b(rewind|go back|back)\b\s*(?:by|for)?\s*(\d+)?\s*(seconds?|secs?|s|minutes?|mins?|m)?`
(AudioService.ts line 223). -/
def rewindRE : RE :=
  rSeq
    [ RE.wordB
    , RE.group 1 (rAlts [rStr "rewind", rStr "go back", rStr "back"])
    , RE.wordB
    , rStar RE.space
    , rOpt (rAlts [rStr "by", rStr "for"])
    , rStar RE.space
    , rOpt (RE.group 2 (rPlus RE.digit))
    , rStar RE.space
    , rOpt unitGroupRE ]

/-- Pattern `\b(forward|go forward|skip ahead|ahead)\b\s*(?:by|for)?\s*(\d+)?\s*(seconds?|secs?|s|minutes?|mins?|m)?`
(AudioService.ts line 232). -/
def forwardRE : RE :=
  rSeq
    [ RE.wordB
    , RE.group 1 (rAlts [rStr "forward", rStr "go forward", rStr "skip ahead", rStr "ahead"])
    , RE.wordB
    , rStar RE.space
    , rOpt (rAlts [rStr "by", rStr "for"])
    , rStar RE.space
    , rOpt (RE.group 2 (rPlus RE.digit))
    , rStar RE.space
    , rOpt unitGroupRE ]

/-- Pattern `\b(pause|stop)\b` (AudioService.ts line 241). -/
def pauseRE : RE :=
  rSeq [RE.wordB, RE.group 1 (rAlts [rStr "pause", rStr "stop"]), RE.wordB]

/-- Pattern `\b(play|resume)\b` (AudioService.ts line 244). -/
def playRE : RE :=
  rSeq [RE.wordB, RE.group 1 (rAlts [rStr "play", rStr "resume"]), RE.wordB]

/-- Pattern `\b(speed|playback speed)\b.*?(?:to|at)?\s*([0-9]+(?:\.[0-9]+)?)`
(AudioService.ts line 249). -/
def speedRE : RE :=
  rSeq
    [ RE.wordB
    , RE.group 1 (rAlts [rStr "speed", rStr "playback speed"])
    , RE.wordB
    , rStarLazy RE.anyc
    , rOpt (rAlts [rStr "to", rStr "at"])
    , rStar RE.space
    , RE.group 2 (rSeq [rPlus RE.digit, rOpt (rSeq [RE.lit '.', rPlus RE.digit])]) ]

/-- Pattern `\bfaster\b` (AudioService.ts line 253). -/
def fasterRE : RE := rSeq [RE.wordB, rStr "faster", RE.wordB]

/-- Pattern `\bslower\b` (AudioService.ts line 256). -/
def slowerRE : RE := rSeq [RE.wordB, rStr "slower", RE.wordB]

/-- Pattern `\bvolume\b.*?(?:to|at)?\s*(\d{1,3})\s*%?` (AudioService.ts line 261). -/
def volumeRE : RE :=
  rSeq
    [ RE.wordB
    , rStr "volume"
    , RE.wordB
    , rStarLazy RE.anyc
    , rOpt (rAlts [rStr "to", rStr "at"])
    , rStar RE.space
    , RE.group 1 (RE.rep 1 (some 3) true RE.digit)
    , rStar RE.space
    , rOpt (RE.lit '%') ]

/-- Pattern `\b(jump|go) to\b\s*(?:where\s*)?(.+)` (AudioService.ts line 267). -/
def jumpRE : RE :=
  rSeq
    [ RE.wordB
    , RE.group 1 (rAlts [rStr "jump", rStr "go"])
    , rStr " to"
    , RE.wordB
    , rStar RE.space
    , rOpt (rSeq [rStr "where", rStar RE.space])
    , RE.group 2 (rPlus RE.anyc) ]

/-! ## The intent model and the intent parser -/

/-- Payload of an `IntentMessage`: the source stores either a number or a
string in `value`.  Numbers are modelled as exact rationals (the numeric
literals of the source, `1.25` and `0.75`, are exactly representable). -/
inductive IntentValue where
  | num : ℚ → IntentValue
  | str : String → IntentValue
deriving Repr, DecidableEq

/-- The control message produced by the intent parser
(`IntentMessage` of src/daemon/src/types). -/
structure IntentMessage where
  intent : String
  value : Option IntentValue
deriving Repr, DecidableEq

/-- Digits of a decimal numeral to a natural number. -/
def digitsToNat (ds : List Char) : Nat :=
  ds.foldl (fun a c => a * 10 + (c.toNat - 48)) 0

/-- JS `Number(s)` restricted to the numeral shapes the parser feeds it:
`[0-9]+` optionally followed by `.` and `[0-9]+`. -/
def numParse (s : String) : ℚ :=
  let cs := s.toList
  let intPart := cs.takeWhile Char.isDigit
  let rest := cs.dropWhile Char.isDigit
  match rest with
  | '.' :: frac =>
      let fs := frac.takeWhile Char.isDigit
      (digitsToNat intPart : ℚ) + (digitsToNat fs : ℚ) / ((10 : ℚ) ^ fs.length)
  | _ => (digitsToNat intPart : ℚ)

/-- Fuel passed to the regex engine; far beyond the backtracking depth any
of the nine patterns can need on the inputs considered (depth is bounded by
the pattern size plus a small constant per consumed character). -/
def parseFuel (cs : List Char) : Nat := cs.length * 50 + 500

/-- JS `Number(s)` on the numeral shapes the parser feeds it, over chars. -/
def numParseChars (cs : List Char) : ℚ :=
  numParse (String.mk cs)

/-- Source function `AudioService.parseIntentFromText` (AudioService.ts lines 219-273):
lower-case and trim the text, then try the nine patterns in source order;
the first match wins, otherwise no intent. -/
def parseIntentFromText (text : String) : Option IntentMessage :=
  let cs := jsTrim (jsToLower text.toList)
  let fuel := parseFuel cs
  match reSearch rewindRE cs fuel with
  | some (_, _, caps) =>
      let amount := numParseChars ((capChars cs caps 2).getD "10".toList)
      let unit := jsToLower ((capChars cs caps 3).getD "s".toList)
      let seconds := if startsWithM unit then amount * 60 else amount
      some { intent := "rewind", value := some (IntentValue.num seconds) }
  | none =>
  match reSearch forwardRE cs fuel with
  | some (_, _, caps) =>
      let amount := numParseChars ((capChars cs caps 2).getD "10".toList)
      let unit := jsToLower ((capChars cs caps 3).getD "s".toList)
      let seconds := if startsWithM unit then amount * 60 else amount
      some { intent := "forward", value := some (IntentValue.num seconds) }
  | none =>
  if (reSearch pauseRE cs fuel).isSome then
    some { intent := "pause", value := none }
  else if (reSearch playRE cs fuel).isSome then
    some { intent := "play", value := none }
  else
  match reSearch speedRE cs fuel with
  | some (_, _, caps) =>
      some { intent := "set_speed"
           , value := some (IntentValue.num (numParseChars ((capChars cs caps 2).getD []))) }
  | none =>
  if (reSearch fasterRE cs fuel).isSome then
    some { intent := "set_speed", value := some (IntentValue.num 1.25) }
  else if (reSearch slowerRE cs fuel).isSome then
    some { intent := "set_speed", value := some (IntentValue.num 0.75) }
  else
  match reSearch volumeRE cs fuel with
  | some (_, _, caps) =>
      some { intent := "set_volume"
           , value := some (IntentValue.num
               (min 100 (numParseChars ((capChars cs caps 1).getD [])))) }
  | none =>
  match reSearch jumpRE cs fuel with
  | some (_, _, caps) =>
      some { intent := "jump_to_phrase"
           , value := some (IntentValue.str (String.mk (jsTrim ((capChars cs caps 2).getD [])))) }
  | none => none

/-! ## WAV synthesis

`pcmToWav` appears twice in the source with identical bodies
(src/daemon/src/services/AudioService.ts lines 278-303 and
src/daemon/src/services/ElevenLabsService.ts lines 386-411).  Buffers are
modelled as lists of byte values.  `Buffer.writeUInt16LE` throws a
`RangeError` for values above `2^16 - 1` and `Buffer.writeUInt32LE` for
values above `2^32 - 1`, so the source function throws — and produces no
buffer — whenever the riff size, channel count, sample rate, byte rate,
block align or data size is out of range; the model returns `none` in
exactly those cases. -/

/-- Little-endian 16-bit encoding of `n % 2^16`. -/
def le16 (n : Nat) : List Nat := [n % 256, n / 256 % 256]

/-- Little-endian 32-bit encoding of `n % 2^32`. -/
def le32 (n : Nat) : List Nat :=
  [n % 256, n / 256 % 256, n / 65536 % 256, n / 16777216 % 256]

/-- ASCII bytes of the tag `RIFF`, as written by `Buffer.write("RIFF", 0)`. -/
def riffTag : List Nat := [82, 73, 70, 70]

/-- ASCII bytes of the tag `WAVE`. -/
def waveTag : List Nat := [87, 65, 86, 69]

/-- ASCII bytes of the tag `fmt ` (with the trailing space). -/
def fmtTag : List Nat := [102, 109, 116, 32]

/-- ASCII bytes of the tag `data`. -/
def dataTag : List Nat := [100, 97, 116, 97]

/-- The 44 header bytes the source writes at offsets 0-43, in offset order:
RIFF tag (offset 0), riff size `36 + dataSize` (offset 4), WAVE tag
(offset 8), `fmt ` tag (offset 12), chunk size 16 (offset 16), audio format
1 (offset 20), channels (offset 22), sample rate (offset 24), byte rate
`sampleRate * channels * 2` (offset 28), block align `channels * 2`
(offset 32), 16 bits per sample (offset 34), `data` tag (offset 36), data
size (offset 40).  Written as one flat list of the little-endian bytes;
`wavHeaderBytes_decomposition` below states the grouped form.  The `% 256`
byte decompositions are exact for the field ranges the Buffer writes
accept; `pcmToWav` below only uses this header under its range guard and
returns `none` (the source throws) otherwise. -/
def wavHeaderBytes (dataSize sampleRate channels : Nat) : List Nat :=
  [82, 73, 70, 70,
   (36 + dataSize) % 256, (36 + dataSize) / 256 % 256,
   (36 + dataSize) / 65536 % 256, (36 + dataSize) / 16777216 % 256,
   87, 65, 86, 69,
   102, 109, 116, 32,
   16, 0, 0, 0,
   1, 0,
   channels % 256, channels / 256 % 256,
   sampleRate % 256, sampleRate / 256 % 256,
   sampleRate / 65536 % 256, sampleRate / 16777216 % 256,
   sampleRate * channels * 2 % 256, sampleRate * channels * 2 / 256 % 256,
   sampleRate * channels * 2 / 65536 % 256,
   sampleRate * channels * 2 / 16777216 % 256,
   channels * 2 % 256, channels * 2 / 256 % 256,
   16, 0,
   100, 97, 116, 97,
   dataSize % 256, dataSize / 256 % 256,
   dataSize / 65536 % 256, dataSize / 16777216 % 256]

/-- The header is exactly the concatenation, in offset order, of the four
tags and the little-endian encodings of the numeric fields the source
writes: riff size, chunk size 16, format 1, channels, sample rate, byte
rate, block align, bits per sample 16, data size. -/
theorem wavHeaderBytes_decomposition (dataSize sampleRate channels : Nat) :
    wavHeaderBytes dataSize sampleRate channels =
      riffTag ++ le32 (36 + dataSize) ++ waveTag ++
      fmtTag ++ le32 16 ++ le16 1 ++ le16 channels ++
      le32 sampleRate ++ le32 (sampleRate * channels * 2) ++
      le16 (channels * 2) ++ le16 16 ++ dataTag ++ le32 dataSize := by
  simp [wavHeaderBytes, riffTag, waveTag, fmtTag, dataTag, le32, le16]

/-- Model of `pcmToWav(pcm, sampleRate, channels)`: allocate `44 + pcm.length` bytes,
write the header fields at offsets 0-43 (they exactly tile the first 44
bytes) and copy the PCM data at offset 44.  The numeric writes are
range-checked by Node: `writeUInt32LE` accepts values up to `2^32 - 1`
(riff size `36 + dataSize` at offset 4, sample rate at offset 24, byte
rate `sampleRate * channels * 2` at offset 28, data size at offset 40) and
`writeUInt16LE` accepts values up to `2^16 - 1` (channels at offset 22,
block align `channels * 2` at offset 32); an out-of-range value makes the
source throw a `RangeError` and produce no buffer, modelled as `none`. -/
def pcmToWav (pcm : List Nat) (sampleRate : Nat) (channels : Nat) :
    Option (List Nat) :=
  if 36 + pcm.length < 4294967296 ∧ channels < 65536 ∧
      sampleRate < 4294967296 ∧ sampleRate * channels * 2 < 4294967296 ∧
      channels * 2 < 65536 then
    some (wavHeaderBytes pcm.length sampleRate channels ++ pcm)
  else none

/-- The byte at an offset of a buffer (0 past the end). -/
def byteAt (b : List Nat) (o : Nat) : Nat :=
  match b with
  | [] => 0
  | x :: rest => if o = 0 then x else byteAt rest (o - 1)

/-- Model of `Buffer.readUInt16LE(offset)` on the byte-list model. -/
def readUInt16LE (b : List Nat) (o : Nat) : Nat :=
  byteAt b o + 256 * byteAt b (o + 1)

/-- Model of `Buffer.readUInt32LE(offset)` on the byte-list model. -/
def readUInt32LE (b : List Nat) (o : Nat) : Nat :=
  byteAt b o + 256 * byteAt b (o + 1) + 65536 * byteAt b (o + 2) +
    16777216 * byteAt b (o + 3)

/-! ## The conversational session and the turn state machine

`ConversationalSession` (used throughout
src/daemon/src/services/ElevenLabsService.ts; initialised at lines 107-119).
Timestamps are `Date.now()` values, modelled as integers supplied to each
handler.  Pending turn-completion callbacks are modelled by opaque
identifiers held in FIFO order.  Audio chunks are modelled by the decoded
bytes of the base64 payload (`Buffer.from(audioBase64, "base64")`); the
source skips the push when the base64 string is empty, which corresponds to
an empty byte list. -/

structure ConversationalSession where
  isOpen : Bool
  sentInit : Bool
  lastAudioAt : Int
  lastEventAt : Int
  turnChunks : List (List Nat)
  agentText : String
  seenResponse : Bool
  finalReady : Bool
  pending : List Nat
  intervalActive : Bool
deriving Repr, DecidableEq

/-- The parsed WebSocket messages dispatched on by
`handleWebSocketMessage` (ElevenLabsService.ts lines 209-253): the
`message.type` values the switch distinguishes, with the payload fields each
case reads.  `other` stands for any unrecognised type (no case fires). -/
inductive Msg where
  | initiationMetadata : Msg
  | agentResponse : String → Bool → Msg
  | agentResponseCorrection : String → Msg
  | audio : List Nat → Msg
  | ping : Option Nat → Msg
  | responseCompleted : Msg
  | responseEnd : Msg
  | done : Msg
  | conversationEnd : Msg
  | tentative : String → Msg
  | other : Msg
deriving Repr, DecidableEq

/-- A frame sent back on the session socket. -/
inductive Outbound where
  | pong : Nat → Outbound
deriving Repr, DecidableEq

/-- Source function `handleAgentResponse` (ElevenLabsService.ts lines 258-269): a non-empty
response overwrites the text buffer and marks the response seen; an
`is_final === true` flag additionally marks the turn finalization-ready. -/
def handleAgentResponse (s : ConversationalSession) (text : String)
    (isFinal : Bool) : ConversationalSession :=
  if text = "" then s
  else
    let s := { s with agentText := text, seenResponse := true }
    if isFinal then { s with finalReady := true } else s

/-- Source function `handleAgentResponseCorrection` (ElevenLabsService.ts lines 274-281). -/
def handleAgentResponseCorrection (s : ConversationalSession)
    (text : String) : ConversationalSession :=
  if text = "" then s
  else { s with agentText := text, seenResponse := true, finalReady := true }

/-- Source function `handleAudioChunk` (ElevenLabsService.ts lines 286-293): a non-empty
chunk is appended to the ordered chunk list and the last-audio timestamp is
set to the current time. -/
def handleAudioChunk (now : Int) (s : ConversationalSession)
    (bytes : List Nat) : ConversationalSession :=
  if bytes = [] then s
  else { s with turnChunks := s.turnChunks ++ [bytes], lastAudioAt := now }

/-- Source function `handlePing` (ElevenLabsService.ts lines 298-307): reply with a pong
carrying the same event id, only when the ping has one. -/
def handlePing (eventId : Option Nat) : List Outbound :=
  match eventId with
  | some e => [Outbound.pong e]
  | none => []

/-- Source function `handleTentativeResponse` (ElevenLabsService.ts lines 312-317): a
tentative text fills the text buffer only while it is empty. -/
def handleTentativeResponse (s : ConversationalSession) (text : String) :
    ConversationalSession :=
  if text ≠ "" ∧ s.agentText = "" then { s with agentText := text } else s

/-- Source function `handleWebSocketMessage` (ElevenLabsService.ts lines 209-253): every
successfully parsed message first sets `lastEventAt := Date.now()`, then the
switch dispatches on the message type; the four done-style types set the
finalization-ready flag; unrecognised types do nothing further.  Returns the
updated session and the frames sent back. -/
def handleWebSocketMessage (now : Int) (s : ConversationalSession)
    (m : Msg) : ConversationalSession × List Outbound :=
  let s := { s with lastEventAt := now }
  match m with
  | Msg.initiationMetadata => (s, [])
  | Msg.agentResponse text isFinal => (handleAgentResponse s text isFinal, [])
  | Msg.agentResponseCorrection text => (handleAgentResponseCorrection s text, [])
  | Msg.audio bytes => (handleAudioChunk now s bytes, [])
  | Msg.ping eventId => (s, handlePing eventId)
  | Msg.responseCompleted => ({ s with finalReady := true }, [])
  | Msg.responseEnd => ({ s with finalReady := true }, [])
  | Msg.done => ({ s with finalReady := true }, [])
  | Msg.conversationEnd => ({ s with finalReady := true }, [])
  | Msg.tentative text => (handleTentativeResponse s text, [])
  | Msg.other => (s, [])

/-- Source function `checkTurnFinalization` (ElevenLabsService.ts lines 322-333), as the
decision whether the poll fires `finalizeTurn`: nothing happens without a
pending callback; otherwise the turn is finalized when the explicit flag is
set, or audio chunks exist and `Date.now() - lastEventAt` exceeds 1200ms,
or a response was seen and `Date.now() - lastEventAt` exceeds 3000ms. -/
def checkTurnFinalization (now : Int) (s : ConversationalSession) : Bool :=
  if s.pending.isEmpty then false
  else
    let idle := now - s.lastEventAt
    let audioReady := !s.turnChunks.isEmpty && decide (idle > 1200)
    let textReady := s.seenResponse && decide (idle > 3000)
    s.finalReady || audioReady || textReady

/-! ## Session cleanup on close or error

`setupWebSocketHandlers` (ElevenLabsService.ts lines 195-203) installs
`close` and `error` handlers that only log and call `cleanupSession`
(lines 502-508), which clears the poll interval when present and deletes
the session from the registry — and touches nothing else.  To examine what
happens to the pending callbacks we track, alongside the registry flag and
the timer, which callbacks have ever been resolved or rejected. -/

structure SessionLifecycle where
  registered : Bool
  intervalActive : Bool
  pending : List Nat
  resolved : List Nat
  rejected : List Nat
deriving Repr, DecidableEq

/-- Source function `cleanupSession` (ElevenLabsService.ts lines 502-508): clear the
interval, delete the registry entry.  No callback is resolved or rejected
and the pending queue is not consulted. -/
def cleanupSession (d : SessionLifecycle) : SessionLifecycle :=
  { d with intervalActive := false, registered := false }

/-- The `ws.on("close")` handler (ElevenLabsService.ts lines 195-198): log
and call `cleanupSession`.  The `ws.on("error")` handler (lines 200-203) is
identical. -/
def onSocketClose (d : SessionLifecycle) : SessionLifecycle :=
  cleanupSession d

/-! ## Session conversation memory -/

/-- Role of a memory entry. -/
inductive Role where
  | user : Role
  | assistant : Role
deriving Repr, DecidableEq

/-- Model of `SessionMemoryItem`: role and text.  Text is modelled as its character
list; `text.slice(0, 800)` is `take 800`. -/
structure SessionMemoryItem where
  role : Role
  text : List Char
deriving Repr, DecidableEq

/-- The `while (memory.length > 6) memory.shift()` loop of
`addToSessionMemory` (ElevenLabsService.ts lines 518-520): repeatedly drop
the oldest entry while more than 6 remain. -/
def shiftToSix (m : List SessionMemoryItem) : List SessionMemoryItem :=
  if m.length > 6 then
    match m with
    | [] => []
    | _ :: rest => shiftToSix rest
  else m
termination_by m.length

/-- Source function `addToSessionMemory` (ElevenLabsService.ts lines 513-523) for one
session: append the entry with the text truncated to its first 800
characters, then shift out the oldest entries while more than 6 remain. -/
def addToSessionMemory (m : List SessionMemoryItem) (role : Role)
    (text : List Char) : List SessionMemoryItem :=
  shiftToSix (m ++ [{ role := role, text := text.take 800 }])

/-! ## Embedding index reuse -/

/-- Model of `EmbeddingItem` (one entry of a cached index). -/
structure EmbeddingItem where
  idx : Nat
  start : ℚ
  duration : ℚ
  text : String
  embedding : List ℚ
deriving DecidableEq

/-- Model of `EmbeddingCache` (the persisted index): stored model identifier,
dimensionality and items. -/
structure EmbeddingCache where
  model : String
  dims : Nat
  items : List EmbeddingItem
deriving DecidableEq

/-- Outcome of the cache check in `ensureEmbeddings`. -/
inductive EnsureOutcome where
  | useCache : EmbeddingCache → EnsureOutcome
  | regenerate : EnsureOutcome
deriving DecidableEq

/-- The cache decision of `ensureEmbeddings`
(src/daemon/src/services/EmbeddingService.ts lines 42-52): unless a refresh
is forced, a cached index is returned only when it exists, its stored model
equals the configured embedding model, and it has at least one item;
otherwise the embeddings are regenerated. -/
def ensureEmbeddingsDecision (forceRefresh : Bool)
    (cached : Option EmbeddingCache) (configuredModel : String) :
    EnsureOutcome :=
  if !forceRefresh then
    match cached with
    | some c =>
        if c.model = configuredModel ∧ c.items.length > 0 then
          EnsureOutcome.useCache c
        else EnsureOutcome.regenerate
    | none => EnsureOutcome.regenerate
  else EnsureOutcome.regenerate

/-! ## Broadcast channel

`WebSocketHandler.broadcast` (WebSocket handler module, lines 67-87): the
message is serialized once before the loop; each client in open state
(`readyState === 1`) gets a `send` which may throw, counted as a success or
a failure without leaving the loop; non-open clients are skipped.  A client
is modelled by its ready state and whether its `send` throws. -/

structure Client where
  readyState : Nat
  sendFails : Bool
deriving Repr, DecidableEq

/-- Result of a broadcast: the success and failure counters and, for each
successful `send` in iteration order, the receiving client paired with the
payload written to it. -/
structure BroadcastResult where
  sentCount : Nat
  errorCount : Nat
  delivered : List (Client × String)
deriving Repr, DecidableEq

/-- Loop body of `broadcast` for one client: skip a client not in open
state; count a throwing `send`; otherwise write the payload and count the
success. -/
def broadcastStep (payload : String) (acc : BroadcastResult) (c : Client) :
    BroadcastResult :=
  if c.readyState = 1 then
    if c.sendFails then { acc with errorCount := acc.errorCount + 1 }
    else { acc with sentCount := acc.sentCount + 1
                  , delivered := acc.delivered ++ [(c, payload)] }
  else acc

/-- Model of `broadcast(message)`: `JSON.stringify(message)` is computed once before
the loop (its result is the `payload` argument), then the loop body runs
over all clients from zero counters.  The function is total: a failing
`send` is caught inside the loop, so no exception escapes the broadcast. -/
def broadcast (payload : String) (clients : List Client) : BroadcastResult :=
  clients.foldl (broadcastStep payload)
    { sentCount := 0, errorCount := 0, delivered := [] }

/-- An open client whose `send` succeeds. -/
def openOk (c : Client) : Bool := c.readyState == 1 && !c.sendFails

/-- An open client whose `send` throws. -/
def openFail (c : Client) : Bool := c.readyState == 1 && c.sendFails

/-! ## Wake-word frame splitter

The `data` handler installed by `setupAudioProcessing`
(src/daemon/src/services/AudioService.ts lines 92-130): the incoming chunk
is appended to the accumulator, then while at least `frameBytes` bytes are
buffered, the first `frameBytes` bytes are cut off and fed to the detector.
`frameBytes = detector.frameLength * 2` is positive for a real detector;
the theorems assume it (with `frameBytes = 0` the JS loop would not
terminate). -/

/-- The `while (frameBuffer.length >= frameBytes)` loop: returns the frames
fed to the detector, in order, and the remaining accumulator. -/
def processFrames (frameBytes : Nat) (buf : List Nat) :
    List (List Nat) × List Nat :=
  if _h : 0 < frameBytes ∧ frameBytes ≤ buf.length then
    (buf.take frameBytes :: (processFrames frameBytes (buf.drop frameBytes)).1,
     (processFrames frameBytes (buf.drop frameBytes)).2)
  else ([], buf)
termination_by buf.length
decreasing_by
  all_goals simp only [List.length_drop]
  all_goals omega

/-- One `data` event: concatenate the chunk onto the accumulator and run the
frame loop. -/
def onAudioData (frameBytes : Nat) (buf : List Nat) (data : List Nat) :
    List (List Nat) × List Nat :=
  processFrames frameBytes (buf ++ data)

/-- A whole sequence of `data` events, from the initial empty accumulator:
returns every frame ever fed to the detector, in order, and the final
accumulator. -/
def runAudioStream (frameBytes : Nat) (chunks : List (List Nat)) :
    List (List Nat) × List Nat :=
  chunks.foldl
    (fun acc d =>
      let r := onAudioData frameBytes acc.2 d
      (acc.1 ++ r.1, r.2))
    ([], [])

/-! ## Concrete inputs and states used by the claim theorems -/

/-- The C3 test input. -/
def c3Input : String := "jump to where they discuss transformers"

/-- The unmatched C9 test input, `what is...` (precisely: the C9 input below) (the
apostrophe is written through its code point 39). -/
def c9NoMatchInput : String :=
  "what" ++ (Char.ofNat 39).toString ++ "s the capital of France"

/-! ## Claim theorems -/

/-- C3, counterexample: on `jump to where they discuss transformers` the
parser does not return the full remainder `where they discuss transformers`
— the pattern `(?:where\s*)?` consumes the leading `where`. -/
theorem c3_counterexample :
    ¬ (parseIntentFromText c3Input =
        some { intent := "jump_to_phrase"
             , value := some (IntentValue.str "where they discuss transformers") }) := by
  with_unfolding_all decide

/-- C3, amended: on `jump to where they discuss transformers` the parser
returns the intent `jump_to_phrase` with value `they discuss transformers`
— the remainder after the jump keyword with the optional leading `where`
stripped, captured verbatim. -/
theorem c3_jump_capture :
    parseIntentFromText c3Input =
      some { intent := "jump_to_phrase"
           , value := some (IntentValue.str "they discuss transformers") } := by
  with_unfolding_all decide

/-- C9: the intent parser (a pure function) maps `rewind 15 seconds` to
rewind 15; `go back 2 minutes` to rewind 120 (minutes scale by 60);
`set volume to 150` to set_volume clamped to 100; and the unmatched text
`what is...` (precisely: the C9 input below) to no intent. -/
theorem c9_intent_parser_examples :
    parseIntentFromText "rewind 15 seconds" =
        some { intent := "rewind", value := some (IntentValue.num 15) } ∧
    parseIntentFromText "go back 2 minutes" =
        some { intent := "rewind", value := some (IntentValue.num 120) } ∧
    parseIntentFromText "set volume to 150" =
        some { intent := "set_volume", value := some (IntentValue.num 100) } ∧
    parseIntentFromText c9NoMatchInput = none := by
  refine ⟨?_, ?_, ?_, ?_⟩ <;> with_unfolding_all decide

/-- C2: when the socket of a session closes (or errors), the installed
handler runs `cleanupSession`, which removes the session from the registry
and cancels the poll timer but settles no callback: the pending queue is
untouched and nothing is added to the rejected (or resolved) callbacks —
every pending callback is silently dropped, contrary to the claim. -/
theorem c2_close_drops_pending (d : SessionLifecycle) :
    onSocketClose d =
      { registered := false
      , intervalActive := false
      , pending := d.pending
      , resolved := d.resolved
      , rejected := d.rejected } := by
  rfl

/-- C5, counterexample: handling a keepalive ping (with event id 7, at time
5000, on a session whose last event was at time 100) does send the pong,
but does not leave the turn state unchanged: the last-event timestamp is
advanced to the current time. -/
theorem c5_counterexample :
    (handleWebSocketMessage 5000
        { isOpen := true, sentInit := true, lastAudioAt := 0, lastEventAt := 100
        , turnChunks := [], agentText := "", seenResponse := false
        , finalReady := false, pending := [0], intervalActive := true }
        (Msg.ping (some 7))).2 = [Outbound.pong 7] ∧
    (handleWebSocketMessage 5000
        { isOpen := true, sentInit := true, lastAudioAt := 0, lastEventAt := 100
        , turnChunks := [], agentText := "", seenResponse := false
        , finalReady := false, pending := [0], intervalActive := true }
        (Msg.ping (some 7))).1.lastEventAt ≠ 100 := by
  with_unfolding_all decide

/-- C5, amended: a keepalive ping carrying an event id is answered with a
pong bearing that id, and a ping without an event id is not answered; in
both cases handling the ping leaves the accumulated text, the audio chunk
list, the response-seen flag, the finalization-ready flag and the
last-audio timestamp unchanged, while the last-event timestamp is set to
the current time (as for every incoming message). -/
theorem c5_ping_effect (now : Int) (s : ConversationalSession) (eid : Nat) :
    handleWebSocketMessage now s (Msg.ping (some eid)) =
      ({ s with lastEventAt := now }, [Outbound.pong eid]) ∧
    handleWebSocketMessage now s (Msg.ping none) =
      ({ s with lastEventAt := now }, []) := by
  exact ⟨rfl, rfl⟩

/-- The cached index used by the C8 theorems: built with model `A` and a
non-empty item list. -/
def cacheBuiltWithA : EmbeddingCache :=
  { model := "A", dims := 3
  , items := [{ idx := 0, start := 0, duration := 1, text := "hello", embedding := [1, 0, 0] }] }

/-- C8: a cached embedding index is reused only when its stored model
identifier equals the configured embedding model and its item list is
non-empty; in particular an index built with model `A` is regenerated when
the configured model is `B`, even though its items are non-empty. -/
theorem c8_cache_model_guard :
    (∀ (fr : Bool) (cached : Option EmbeddingCache) (cfg : String)
        (c : EmbeddingCache),
      ensureEmbeddingsDecision fr cached cfg = EnsureOutcome.useCache c →
      cached = some c ∧ c.model = cfg ∧ c.items ≠ []) ∧
    cacheBuiltWithA.items ≠ [] ∧
    ensureEmbeddingsDecision false (some cacheBuiltWithA) "B" =
      EnsureOutcome.regenerate := by
  refine ⟨?_, by simp [cacheBuiltWithA], ?_⟩
  · intro fr cached cfg c h
    unfold ensureEmbeddingsDecision at h
    cases fr with
    | true => simp at h
    | false =>
      cases cached with
      | none => simp at h
      | some c0 =>
        simp only [Bool.not_false, if_true] at h
        by_cases hc : c0.model = cfg ∧ c0.items.length > 0
        · rw [if_pos hc] at h
          cases h
          exact ⟨rfl, hc.1, by have := hc.2; intro he; simp [he] at this⟩
        · rw [if_neg hc] at h
          cases h
  · rfl

/-- C8 witness: at force-refresh off, cache built with model `A`, configured
model `A`, the decision is to reuse the cache, and the guard of the theorem
then yields the model match and non-emptiness. -/
theorem c8_cache_model_guard_witness :
    some cacheBuiltWithA = some cacheBuiltWithA ∧
    cacheBuiltWithA.model = "A" ∧ cacheBuiltWithA.items ≠ [] :=
  c8_cache_model_guard.1 false (some cacheBuiltWithA) "A" cacheBuiltWithA rfl

/-- The finalization policy as claim C1 states it, modelled from the claim
wording for comparison with the code: finalize iff the explicit flag is set,
or audio chunks exist and the idle time since the last audio chunk exceeds
1200ms, or a response was seen and the idle time since the last event
exceeds 3000ms. -/
def claimFinalizePolicy (now : Int) (s : ConversationalSession) : Prop :=
  s.finalReady = true ∨
  (s.turnChunks ≠ [] ∧ now - s.lastAudioAt > 1200) ∨
  (s.seenResponse = true ∧ now - s.lastEventAt > 3000)

/-- The finalization policy as amended: the short-threshold clause measures
idle time since the last event (not since the last audio chunk), exactly as
the long-threshold clause does. -/
def amendedFinalizePolicy (now : Int) (s : ConversationalSession) : Prop :=
  s.finalReady = true ∨
  (s.turnChunks ≠ [] ∧ now - s.lastEventAt > 1200) ∨
  (s.seenResponse = true ∧ now - s.lastEventAt > 3000)

/-- The C1 counterexample session: one pending callback, one audio chunk
received at time 1000, a later non-audio event at time 2000, neither flag
set. -/
def c1State : ConversationalSession :=
  { isOpen := true, sentInit := true, lastAudioAt := 1000, lastEventAt := 2000
  , turnChunks := [[1]], agentText := "", seenResponse := false
  , finalReady := false, pending := [0], intervalActive := true }

/-- C1, counterexample: at time 2500 the claimed policy fires (audio exists
and 1500ms passed since the last audio chunk) but the code does not
finalize, because it measures idle time from the last event (500ms): the
claim, as stated, is false of the code. -/
theorem c1_counterexample :
    c1State.pending ≠ [] ∧ claimFinalizePolicy 2500 c1State ∧
      checkTurnFinalization 2500 c1State = false := by
  refine ⟨by decide, ?_, by with_unfolding_all decide⟩
  exact Or.inr (Or.inl ⟨by decide, by decide⟩)

/-- C1, amended: for every session with at least one pending callback, the
periodic check finalizes the turn iff the explicit finalization-ready flag
is set, or audio chunks exist and the idle time since the last event
exceeds 1200ms, or a response has been seen and the idle time since the
last event exceeds 3000ms; no other condition triggers finalization, and
the explicit flag triggers it regardless of idle time.  (Without a pending
callback the check never finalizes.) -/
theorem c1_finalization_policy (now : Int) (s : ConversationalSession)
    (h : s.pending ≠ []) :
    (checkTurnFinalization now s = true ↔ amendedFinalizePolicy now s) := by
  have hp : s.pending.isEmpty = false := by
    cases hs : s.pending with
    | nil => exact absurd hs h
    | cons a l => simp [hs]
  simp only [checkTurnFinalization, hp, Bool.false_eq_true, if_false,
    amendedFinalizePolicy, Bool.or_eq_true, Bool.and_eq_true,
    Bool.not_eq_true', decide_eq_true_eq, List.isEmpty_eq_false]
  tauto

/-- C1 witness: a session with a pending callback and the explicit flag set
finalizes at once (idle time 0). -/
theorem c1_finalization_policy_witness :
    checkTurnFinalization 2000
        { isOpen := true, sentInit := true, lastAudioAt := 2000
        , lastEventAt := 2000, turnChunks := [], agentText := "hi"
        , seenResponse := true, finalReady := true, pending := [0]
        , intervalActive := true } = true ↔
      amendedFinalizePolicy 2000
        { isOpen := true, sentInit := true, lastAudioAt := 2000
        , lastEventAt := 2000, turnChunks := [], agentText := "hi"
        , seenResponse := true, finalReady := true, pending := [0]
        , intervalActive := true } :=
  c1_finalization_policy 2000 _ (by decide)

/-- C4: for every PCM byte buffer, sample rate and channel count on which
the source function returns (none of its six range-checked Buffer writes —
riff size, channels, sample rate, byte rate, block align, data size —
throws), the WAV output is the 44-byte header followed by the PCM data; the
declared data chunk size at bytes 40-43 equals the PCM byte length; the
declared RIFF size at bytes 4-7 equals `36 +` the data size; and the header
fields decode back to the supplied sample rate (bytes 24-27), channel count
(bytes 22-23) and 16 bits per sample (bytes 34-35).  Outside those ranges
the source throws and produces no buffer (`pcmToWav` is `none`). -/
theorem c4_wav_header (pcm : List Nat) (sr ch : Nat)
    (hd : 36 + pcm.length < 4294967296) (hch : ch < 65536)
    (hsr : sr < 4294967296) (hbr : sr * ch * 2 < 4294967296)
    (hba : ch * 2 < 65536) :
    pcmToWav pcm sr ch = some (wavHeaderBytes pcm.length sr ch ++ pcm) ∧
    (wavHeaderBytes pcm.length sr ch).length = 44 ∧
    (wavHeaderBytes pcm.length sr ch ++ pcm).drop 44 = pcm ∧
    readUInt32LE (wavHeaderBytes pcm.length sr ch ++ pcm) 40 = pcm.length ∧
    readUInt32LE (wavHeaderBytes pcm.length sr ch ++ pcm) 4 = 36 + pcm.length ∧
    readUInt32LE (wavHeaderBytes pcm.length sr ch ++ pcm) 24 = sr ∧
    readUInt16LE (wavHeaderBytes pcm.length sr ch ++ pcm) 22 = ch ∧
    readUInt16LE (wavHeaderBytes pcm.length sr ch ++ pcm) 34 = 16 := by
  refine ⟨?_, rfl, rfl, ?_, ?_, ?_, ?_, rfl⟩
  · rw [pcmToWav, if_pos ⟨hd, hch, hsr, hbr, hba⟩]
  · have e : readUInt32LE (wavHeaderBytes pcm.length sr ch ++ pcm) 40 =
        pcm.length % 256 + 256 * (pcm.length / 256 % 256) +
          65536 * (pcm.length / 65536 % 256) +
          16777216 * (pcm.length / 16777216 % 256) := rfl
    rw [e]; omega
  · have e : readUInt32LE (wavHeaderBytes pcm.length sr ch ++ pcm) 4 =
        (36 + pcm.length) % 256 + 256 * ((36 + pcm.length) / 256 % 256) +
          65536 * ((36 + pcm.length) / 65536 % 256) +
          16777216 * ((36 + pcm.length) / 16777216 % 256) := rfl
    rw [e]; omega
  · have e : readUInt32LE (wavHeaderBytes pcm.length sr ch ++ pcm) 24 =
        sr % 256 + 256 * (sr / 256 % 256) + 65536 * (sr / 65536 % 256) +
          16777216 * (sr / 16777216 % 256) := rfl
    rw [e]; omega
  · have e : readUInt16LE (wavHeaderBytes pcm.length sr ch ++ pcm) 22 =
        ch % 256 + 256 * (ch / 256 % 256) := rfl
    rw [e]; omega

/-- C4 witness: the theorem instantiated at a 3-byte PCM buffer, 16000Hz,
mono (byte rate 32000 and block align 2, all writes in range). -/
theorem c4_wav_header_witness :
    36 + [1, 2, 3].length < 4294967296 ∧ 1 < 65536 ∧ 16000 < 4294967296 ∧
    16000 * 1 * 2 < 4294967296 ∧ 1 * 2 < 65536 ∧
    (pcmToWav [1, 2, 3] 16000 1 =
        some (wavHeaderBytes [1, 2, 3].length 16000 1 ++ [1, 2, 3]) ∧
     (wavHeaderBytes [1, 2, 3].length 16000 1).length = 44 ∧
     (wavHeaderBytes [1, 2, 3].length 16000 1 ++ [1, 2, 3]).drop 44 = [1, 2, 3] ∧
     readUInt32LE (wavHeaderBytes [1, 2, 3].length 16000 1 ++ [1, 2, 3]) 40 =
        [1, 2, 3].length ∧
     readUInt32LE (wavHeaderBytes [1, 2, 3].length 16000 1 ++ [1, 2, 3]) 4 =
        36 + [1, 2, 3].length ∧
     readUInt32LE (wavHeaderBytes [1, 2, 3].length 16000 1 ++ [1, 2, 3]) 24 = 16000 ∧
     readUInt16LE (wavHeaderBytes [1, 2, 3].length 16000 1 ++ [1, 2, 3]) 22 = 1 ∧
     readUInt16LE (wavHeaderBytes [1, 2, 3].length 16000 1 ++ [1, 2, 3]) 34 = 16) :=
  ⟨by decide, by decide, by decide, by decide, by decide,
   c4_wav_header [1, 2, 3] 16000 1 (by decide) (by decide) (by decide)
     (by decide) (by decide)⟩

/-- The broadcast loop over any starting accumulator: it adds one success
per open non-throwing client, one failure per open throwing client, and
appends one delivery of the payload per open non-throwing client, in
order.  Non-open clients contribute nothing. -/
theorem broadcast_foldl (payload : String) (clients : List Client)
    (acc : BroadcastResult) :
    clients.foldl (broadcastStep payload) acc =
      { sentCount := acc.sentCount + (clients.filter openOk).length
      , errorCount := acc.errorCount + (clients.filter openFail).length
      , delivered :=
          acc.delivered ++ (clients.filter openOk).map (fun c => (c, payload)) } := by
  induction clients generalizing acc with
  | nil => simp
  | cons c cs ih =>
    simp only [List.foldl_cons]
    rw [ih]
    by_cases h1 : c.readyState = 1
    · by_cases h2 : c.sendFails
      · simp [broadcastStep, openOk, openFail, h1, h2, List.filter_cons,
          BroadcastResult.mk.injEq, Nat.add_assoc, Nat.add_comm 1]
      · simp [broadcastStep, openOk, openFail, h1, h2, List.filter_cons,
          BroadcastResult.mk.injEq, Nat.add_assoc, Nat.add_comm 1]
    · have hne : (c.readyState == 1) = false := by
        simp [h1]
      simp [broadcastStep, openOk, openFail, h1, hne, List.filter_cons]

/-- C7: a broadcast writes the once-serialized payload exactly to the
clients in open state whose `send` does not throw, in iteration order; a
throwing `send` is counted in the error counter and aborts neither the loop
nor the broadcast (the function is total and later clients are still
served).  In particular with 3 clients of which 1 is closed the sent count
is 2, and a throwing first client still leaves the second one served. -/
theorem c7_broadcast_behavior (payload : String) :
    (∀ clients : List Client,
      broadcast payload clients =
        { sentCount := (clients.filter openOk).length
        , errorCount := (clients.filter openFail).length
        , delivered := (clients.filter openOk).map (fun c => (c, payload)) }) ∧
    broadcast payload
        [{ readyState := 1, sendFails := false }
        , { readyState := 3, sendFails := false }
        , { readyState := 1, sendFails := false }] =
      { sentCount := 2, errorCount := 0
      , delivered :=
          [({ readyState := 1, sendFails := false }, payload)
          , ({ readyState := 1, sendFails := false }, payload)] } ∧
    broadcast payload
        [{ readyState := 1, sendFails := true }
        , { readyState := 1, sendFails := false }] =
      { sentCount := 1, errorCount := 1
      , delivered := [({ readyState := 1, sendFails := false }, payload)] } := by
  refine ⟨fun clients => ?_, rfl, rfl⟩
  rw [broadcast, broadcast_foldl]
  simp

/-! ### C10: bounded session memory -/

/-- Function `shiftToSix` drops everything but the last six entries. -/
theorem shiftToSix_eq_drop (m : List SessionMemoryItem) :
    shiftToSix m = m.drop (m.length - 6) := by
  induction m with
  | nil =>
    rw [shiftToSix]
    simp
  | cons x rest ih =>
    rw [shiftToSix]
    by_cases h : (x :: rest).length > 6
    · rw [if_pos h]
      rw [ih]
      simp only [List.length_cons]
      have hlen : rest.length + 1 - 6 = (rest.length - 6) + 1 := by
        simp only [List.length_cons] at h
        omega
      rw [hlen, List.drop_succ_cons]
    · rw [if_neg h]
      have hz : (x :: rest).length - 6 = 0 := by
        simp only [List.length_cons] at h ⊢
        omega
      rw [hz, List.drop_zero]

/-- Truncation of one memory call, as stored:
the text cut to its first 800 characters. -/
def truncEntry (rc : Role × List Char) : SessionMemoryItem :=
  { role := rc.1, text := rc.2.take 800 }

/-- A sequence of `addToSessionMemory` calls for one session, from the
initially absent (empty) memory. -/
def sessionMemoryRun (calls : List (Role × List Char)) :
    List SessionMemoryItem :=
  calls.foldl (fun m rc => addToSessionMemory m rc.1 rc.2) []

/-- The memory fold from any well-formed accumulator keeps exactly the last
six of the accumulated truncated entries. -/
theorem sessionMemory_foldl (calls : List (Role × List Char))
    (m : List SessionMemoryItem) (hm : m.length ≤ 6) :
    calls.foldl (fun m rc => addToSessionMemory m rc.1 rc.2) m =
      (m ++ calls.map truncEntry).drop ((m.length + calls.length) - 6) := by
  induction calls generalizing m with
  | nil => simp [Nat.sub_eq_zero_of_le hm]
  | cons c cs ih =>
    simp only [List.foldl_cons]
    have hstep : addToSessionMemory m c.1 c.2 =
        (m ++ [truncEntry c]).drop ((m.length + 1) - 6) := by
      rw [addToSessionMemory, shiftToSix_eq_drop]
      simp [truncEntry]
    have hm2 : ((m ++ [truncEntry c]).drop ((m.length + 1) - 6)).length ≤ 6 := by
      simp only [List.length_drop, List.length_append, List.length_cons,
        List.length_nil]
      omega
    rw [hstep, ih _ hm2]
    have hlen : ((m ++ [truncEntry c]).drop ((m.length + 1) - 6)).length =
        (m.length + 1) - ((m.length + 1) - 6) := by
      simp
    rw [hlen]
    have hd1 : (m.length + 1) - 6 ≤ (m ++ [truncEntry c]).length := by
      simp
      omega
    calc ((m ++ [truncEntry c]).drop ((m.length + 1) - 6) ++ cs.map truncEntry).drop
          (((m.length + 1) - ((m.length + 1) - 6) + cs.length) - 6)
        = (((m ++ [truncEntry c]) ++ cs.map truncEntry).drop ((m.length + 1) - 6)).drop
            (((m.length + 1) - ((m.length + 1) - 6) + cs.length) - 6) := by
          rw [List.drop_append_of_le_length hd1]
      _ = ((m ++ [truncEntry c]) ++ cs.map truncEntry).drop
            ((((m.length + 1) - ((m.length + 1) - 6) + cs.length) - 6) +
              ((m.length + 1) - 6)) := by
          rw [List.drop_drop]
          congr 1
          omega
      _ = (m ++ (c :: cs).map truncEntry).drop ((m.length + (c :: cs).length) - 6) := by
          rw [List.map_cons]
          rw [List.append_assoc]
          simp only [List.cons_append, List.nil_append, List.length_cons]
          congr 1
          omega

/-- C10: after any sequence of `addToSessionMemory` calls for a session the
stored memory holds at most 6 entries; every stored text is at most 800
characters; and the stored list is exactly the most recent entries, in
insertion order, each truncated to its first 800 characters. -/
theorem c10_session_memory_bounded (calls : List (Role × List Char)) :
    (sessionMemoryRun calls).length ≤ 6 ∧
    (∀ e ∈ sessionMemoryRun calls, e.text.length ≤ 800) ∧
    sessionMemoryRun calls =
      (calls.map truncEntry).drop (calls.length - 6) := by
  have h : sessionMemoryRun calls =
      (calls.map truncEntry).drop (calls.length - 6) := by
    rw [sessionMemoryRun, sessionMemory_foldl calls [] (by simp)]
    simp
  refine ⟨?_, ?_, h⟩
  · rw [h]
    simp [List.length_drop]
    omega
  · intro e he
    rw [h] at he
    have he2 : e ∈ calls.map truncEntry := List.mem_of_mem_drop he
    obtain ⟨rc, _, hrc⟩ := List.mem_map.mp he2
    rw [← hrc]
    simp only [truncEntry]
    exact List.length_take_le 800 rc.2

/-! ### C6: wake-word frame alignment -/

/-- The frame loop: every frame cut is exactly `frameBytes` long, the cut
frames followed by the remainder reassemble the input exactly, and the
remainder is shorter than one frame. -/
theorem processFrames_spec (frameBytes : Nat) (hfb : 0 < frameBytes)
    (buf : List Nat) :
    (∀ c ∈ (processFrames frameBytes buf).1, c.length = frameBytes) ∧
    (processFrames frameBytes buf).1.flatten ++ (processFrames frameBytes buf).2 = buf ∧
    (processFrames frameBytes buf).2.length < frameBytes := by
  suffices H : ∀ (n : Nat) (buf : List Nat), buf.length ≤ n →
      (∀ c ∈ (processFrames frameBytes buf).1, c.length = frameBytes) ∧
      (processFrames frameBytes buf).1.flatten ++ (processFrames frameBytes buf).2 = buf ∧
      (processFrames frameBytes buf).2.length < frameBytes by
    exact H buf.length buf le_rfl
  intro n
  induction n with
  | zero =>
    intro buf hb
    have hneg : ¬(0 < frameBytes ∧ frameBytes ≤ buf.length) := by omega
    rw [processFrames, dif_neg hneg]
    refine ⟨by simp, rfl, ?_⟩
    show buf.length < frameBytes
    omega
  | succ n ih =>
    intro buf hb
    by_cases h : 0 < frameBytes ∧ frameBytes ≤ buf.length
    · rw [processFrames, dif_pos h]
      have hlen : (buf.drop frameBytes).length ≤ n := by
        simp only [List.length_drop]
        omega
      obtain ⟨ih1, ih2, ih3⟩ := ih (buf.drop frameBytes) hlen
      refine ⟨?_, ?_, ih3⟩
      · intro c hc
        rcases List.mem_cons.mp hc with hc | hc
        · rw [hc, List.length_take]
          omega
        · exact ih1 c hc
      · simp only [List.flatten_cons]
        rw [List.append_assoc, ih2, List.take_append_drop]
    · rw [processFrames, dif_neg h]
      refine ⟨by simp, rfl, ?_⟩
      show buf.length < frameBytes
      omega

/-- The audio stream fold from any well-formed intermediate state preserves
the C6 invariants. -/
theorem runAudio_foldl (frameBytes : Nat) (hfb : 0 < frameBytes)
    (chunks : List (List Nat)) (fed : List (List Nat)) (buf : List Nat)
    (hfed : ∀ c ∈ fed, c.length = frameBytes) (hbuf : buf.length < frameBytes) :
    (∀ c ∈ (chunks.foldl
        (fun acc d =>
          let r := onAudioData frameBytes acc.2 d
          (acc.1 ++ r.1, r.2)) (fed, buf)).1, c.length = frameBytes) ∧
    (chunks.foldl
        (fun acc d =>
          let r := onAudioData frameBytes acc.2 d
          (acc.1 ++ r.1, r.2)) (fed, buf)).1.flatten ++
      (chunks.foldl
        (fun acc d =>
          let r := onAudioData frameBytes acc.2 d
          (acc.1 ++ r.1, r.2)) (fed, buf)).2 = fed.flatten ++ buf ++ chunks.flatten ∧
    (chunks.foldl
        (fun acc d =>
          let r := onAudioData frameBytes acc.2 d
          (acc.1 ++ r.1, r.2)) (fed, buf)).2.length < frameBytes := by
  induction chunks generalizing fed buf with
  | nil =>
    exact ⟨hfed, by simp, hbuf⟩
  | cons d ds ih =>
    simp only [List.foldl_cons]
    obtain ⟨p1, p2, p3⟩ := processFrames_spec frameBytes hfb (buf ++ d)
    have hfed2 : ∀ c ∈ fed ++ (onAudioData frameBytes buf d).1,
        c.length = frameBytes := by
      intro c hc
      rcases List.mem_append.mp hc with hc | hc
      · exact hfed c hc
      · exact p1 c hc
    have hrest := ih (fed ++ (onAudioData frameBytes buf d).1)
      (onAudioData frameBytes buf d).2 hfed2 p3
    refine ⟨hrest.1, ?_, hrest.2.2⟩
    rw [hrest.2.1]
    simp only [List.flatten_append, List.flatten_cons, onAudioData]
    rw [List.append_assoc (fed.flatten), p2]
    simp [List.append_assoc]

/-- C6: for every frame size and every sequence of arbitrarily sized
incoming audio buffers, each buffer the detector is fed is exactly one
frame long (hence a multiple of the frame size); the fed frames followed by
the final accumulator reassemble the concatenated input exactly (no byte
skipped, duplicated or reordered at chunk boundaries); and the trailing
partial frame kept in the accumulator is shorter than one frame. -/
theorem c6_frame_alignment (frameBytes : Nat) (chunks : List (List Nat))
    (hfb : 0 < frameBytes) :
    (∀ c ∈ (runAudioStream frameBytes chunks).1, c.length = frameBytes) ∧
    (runAudioStream frameBytes chunks).1.flatten ++
        (runAudioStream frameBytes chunks).2 = chunks.flatten ∧
    (runAudioStream frameBytes chunks).2.length < frameBytes := by
  have h := runAudio_foldl frameBytes hfb chunks [] [] (by simp) hfb
  simpa [runAudioStream] using h

/-- C6 witness: frame size 2 over the chunk sequence `[1], [2,3,4], [5]`. -/
theorem c6_frame_alignment_witness :
    0 < 2 ∧
    ((∀ c ∈ (runAudioStream 2 [[1], [2, 3, 4], [5]]).1, c.length = 2) ∧
     (runAudioStream 2 [[1], [2, 3, 4], [5]]).1.flatten ++
         (runAudioStream 2 [[1], [2, 3, 4], [5]]).2 = [[1], [2, 3, 4], [5]].flatten ∧
     (runAudioStream 2 [[1], [2, 3, 4], [5]]).2.length < 2) :=
  ⟨by decide, c6_frame_alignment 2 [[1], [2, 3, 4], [5]] (by decide)⟩

end VoiceRewind
